import Mathlib

/-!
Verification of the calendar-to-task reconciliation program
(src/todoist_sync.py) against its natural-language specification.

The Python source is shallowly embedded below.  Dates and times are
modelled as records of naturals; calendar events are records of optional
fields matching the fields the source reads (summary, dtstart, dtend,
location, description).  Code that can raise a Python exception is
modelled with Except; the unhandled AttributeError raised by accessing
.dt on a missing property is an .error value.
-/

namespace Todoist

/-- A calendar date, as in Python datetime.date. -/
structure Date where
  year : Nat
  month : Nat
  day : Nat
deriving DecidableEq

/-- A time of day, as in Python datetime.time (microseconds ignored). -/
structure Time where
  hour : Nat
  minute : Nat
  second : Nat
deriving DecidableEq

/-- A date-time instant, as in Python datetime.datetime (naive). -/
structure DateTime where
  date : Date
  time : Time
deriving DecidableEq

/-- The value of a DTSTART or DTEND property: either a bare date or a
full date-time, mirroring the two possible types of the .dt attribute. -/
inductive DTV where
  | d : Date → DTV
  | dt : DateTime → DTV
deriving DecidableEq

/-- A parsed VEVENT component.  Each field is optional, matching
component.get(...) returning None when the property is absent. -/
structure VEvent where
  summary : Option String
  dtstart : Option DTV
  dtend : Option DTV
  location : Option String
  description : Option String
deriving DecidableEq

/-! String primitives mirroring the Python string operations used. -/

/-- The ASCII whitespace characters matched by the regex class \s and
stripped by str.strip (space, tab, newline, carriage return, vertical
tab, form feed). -/
def isSpaceChar (c : Char) : Bool :=
  c == ' ' || c == '\t' || c == '\n' || c == '\r' || c.toNat == 11 || c.toNat == 12

/-- Model of re.sub applied with pattern \s+ and replacement " ":
every maximal run of whitespace characters becomes one space. -/
def collapseWs : List Char → List Char
  | [] => []
  | [c] => if isSpaceChar c then [' '] else [c]
  | c :: d :: t =>
    if isSpaceChar c && isSpaceChar d then collapseWs (d :: t)
    else (if isSpaceChar c then ' ' else c) :: collapseWs (d :: t)

/-- Model of str.strip: drop whitespace from both ends. -/
def pyStrip (l : List Char) : List Char :=
  ((l.dropWhile isSpaceChar).reverse.dropWhile isSpaceChar).reverse

/-- Model of str.find for a pattern: index of the first occurrence. -/
def findSub (pat : List Char) : List Char → Option Nat
  | [] => if List.isPrefixOf pat [] then some 0 else none
  | c :: t =>
    if List.isPrefixOf pat (c :: t) then some 0
    else (findSub pat t).map (· + 1)

/-- Model of the Python substring test pat in hay. -/
def strIn (pat hay : String) : Bool :=
  (findSub pat.data hay.data).isSome

/-- Model of str.lower (ASCII, which covers every string the program
compares). -/
def lowerStr (s : String) : String :=
  ⟨s.data.map Char.toLower⟩

/-- Model of str.startswith. -/
def startsWithStr (pre s : String) : Bool :=
  List.isPrefixOf pre.data s.data

/-- Model of re.search for the alternation of "sign:" and "moment:":
position of the earliest occurrence of either delimiter token. -/
def findDelim : List Char → Option Nat
  | [] => none
  | c :: t =>
    if List.isPrefixOf "sign:".data (c :: t) || List.isPrefixOf "moment:".data (c :: t) then some 0
    else (findDelim t).map (· + 1)

/-! The source functions. -/

/-- clean_text: collapse whitespace runs, strip, lowercase
(re.sub followed by .strip() followed by .lower()). -/
def clean_text (text : String) : String :=
  ⟨(pyStrip (collapseWs text.data)).map Char.toLower⟩

/-- extract_lecture_title: on the cleaned summary, search for the anchor
keyword "laboratoriemedicin"; if found, take the substring from the
anchor, truncate at the first "sign:" or "moment:" delimiter, and strip;
if the anchor is not found, return the raw summary merely stripped. -/
def extract_lecture_title (summary : String) : String :=
  match findSub "laboratoriemedicin".data (clean_text summary).data with
  | some idx =>
    match findDelim ((clean_text summary).data.drop idx) with
    | some m => ⟨pyStrip (((clean_text summary).data.drop idx).take m)⟩
    | none => ⟨pyStrip ((clean_text summary).data.drop idx)⟩
  | none => ⟨pyStrip summary.data⟩

/-- Python equality test schema_date == user_date at line 70 of the
source.  Because datetime.datetime is a subclass of datetime.date, the
isinstance test at line 62 is always true and user_date keeps the raw
.dt value; comparing a date with a datetime in Python yields False. -/
def pyDateEq (sd : Date) (ud : DTV) : Bool :=
  match ud with
  | DTV.d d => decide (sd = d)
  | DTV.dt _ => false

/-- The scan loop of find_schema_times over the schema events, with the
loop-invariant user date and user title hoisted out.  Accessing .dt on a
missing dtstart, or .dt on a missing dtend at the matched event, raises
AttributeError in Python and is an .error here. -/
def schemaScan (uds : DTV) (ut : String) : List VEvent → Except String (Option (DTV × DTV))
  | [] => Except.ok none
  | se :: rest =>
    match se.dtstart with
    | none => Except.error "AttributeError: NoneType has no attribute dt"
    | some (DTV.d _) => schemaScan uds ut rest
    | some (DTV.dt t) =>
      if pyDateEq t.date uds then
        let stt := extract_lecture_title (se.summary.getD "")
        if strIn ut stt || strIn stt ut then
          match se.dtend with
          | none => Except.error "AttributeError: NoneType has no attribute dt"
          | some e => Except.ok (some (DTV.dt t, e))
        else schemaScan uds ut rest
      else schemaScan uds ut rest

/-- find_schema_times: if the user event has no dtstart, return None;
otherwise scan the schema events in order for the first event with a
full date-time start on the same date whose extracted title matches the
extracted user title as a substring in either direction, and return its
(dtstart, dtend) values. -/
def find_schema_times (user_event : VEvent) (schema_events : List VEvent) :
    Except String (Option (DTV × DTV)) :=
  match user_event.dtstart with
  | none => Except.ok none
  | some uds => schemaScan uds (extract_lecture_title (user_event.summary.getD "")) schema_events

/-- adjust_zoom_title: if the location contains "zoom" or the
description contains "zoom meeting" (case-insensitively), and the title
does not already start with "Zoom " (case-insensitively), prepend
"Zoom ". -/
def adjust_zoom_title (title : String) (event : VEvent) : String :=
  let loc := event.location.getD ""
  let desc := event.description.getD ""
  if strIn "zoom" (lowerStr loc) || strIn "zoom meeting" (lowerStr desc) then
    if !(startsWithStr "zoom " (lowerStr title)) then "Zoom " ++ title else title
  else title

/-! Textual rendering of dates and times, mirroring Python str() and
isoformat() on date and datetime values. -/

/-- Two-digit zero padding. -/
def pad2 (n : Nat) : String :=
  if n < 10 then "0" ++ toString n else toString n

/-- Four-digit zero padding (for years). -/
def pad4 (n : Nat) : String :=
  if n < 10 then "000" ++ toString n
  else if n < 100 then "00" ++ toString n
  else if n < 1000 then "0" ++ toString n
  else toString n

/-- str(date): YYYY-MM-DD. -/
def strOfDate (d : Date) : String :=
  pad4 d.year ++ "-" ++ pad2 d.month ++ "-" ++ pad2 d.day

/-- HH:MM:SS rendering of a time. -/
def strOfTime (t : Time) : String :=
  pad2 t.hour ++ ":" ++ pad2 t.minute ++ ":" ++ pad2 t.second

/-- str() of a .dt value: str(date) or str(datetime), the fixed textual
form used to build event identifiers. -/
def strOfDTV : DTV → String
  | DTV.d d => strOfDate d
  | DTV.dt t => strOfDate t.date ++ " " ++ strOfTime t.time

/-- isoformat() of a .dt value, used for the due_string argument. -/
def isoDTV : DTV → String
  | DTV.d d => strOfDate d
  | DTV.dt t => strOfDate t.date ++ "T" ++ strOfTime t.time

/-- generate_event_id: summary, a hyphen, then str() of the original
dtstart value (empty when dtstart is absent). -/
def generate_event_id (event : VEvent) : String :=
  (event.summary.getD "") ++ "-" ++
    (match event.dtstart with
     | some v => strOfDTV v
     | none => "")

/-! The tracking-file layer (load_added_events and save_added_events).
Between two runs the identifiers pass through the file: the saving run
writes one line per identifier, the loading run strips every line. -/

/-- Python iteration over the lines of a file: split the content at
each newline character; a trailing chunk without a newline is a final
line; the terminating newline of each line is dropped (the caller
strips it anyway). -/
def pyLines : List Char → List (List Char)
  | [] => []
  | c :: t =>
    if c = '\n' then [] :: pyLines t
    else
      match pyLines t with
      | [] => [[c]]
      | line :: rest => (c :: line) :: rest

/-- The characters save_added_events writes: each identifier followed
by a newline. -/
def saveLinesData : List String → List Char
  | [] => []
  | i :: is => i.data ++ '\n' :: saveLinesData is

/-- save_added_events: the tracking-file content written for a set of
identifiers, one line per identifier. -/
def save_added_events (ids : List String) : String :=
  ⟨saveLinesData ids⟩

/-- load_added_events: read the tracking-file content and collect
line.strip() for every line. -/
def load_added_events (content : String) : List String :=
  (pyLines content.data).map (fun l => (⟨pyStrip l⟩ : String))

/-! The sync_calendar_to_todoist orchestrator. -/

/-- Leap year test, as in the Gregorian calendar used by datetime. -/
def isLeap (y : Nat) : Bool :=
  (y % 4 == 0 && y % 100 != 0) || (y % 400 == 0)

/-- Number of days in a month. -/
def daysInMonth (y m : Nat) : Nat :=
  if m == 2 then (if isLeap y then 29 else 28)
  else if m == 4 || m == 6 || m == 9 || m == 11 then 30 else 31

/-- Model of new_dtstart + timedelta(hours=1), with day, month and year
carry. -/
def addOneHour (t : DateTime) : DateTime :=
  if t.time.hour + 1 ≤ 23 then ⟨t.date, ⟨t.time.hour + 1, t.time.minute, t.time.second⟩⟩
  else if t.date.day + 1 ≤ daysInMonth t.date.year t.date.month then
    ⟨⟨t.date.year, t.date.month, t.date.day + 1⟩, ⟨0, t.time.minute, t.time.second⟩⟩
  else if t.date.month + 1 ≤ 12 then
    ⟨⟨t.date.year, t.date.month + 1, 1⟩, ⟨0, t.time.minute, t.time.second⟩⟩
  else ⟨⟨t.date.year + 1, 1, 1⟩, ⟨0, t.time.minute, t.time.second⟩⟩

/-- The exclusion filter at line 142 of the source: substring tests on
the raw summary. -/
def excludedB (s : String) : Bool :=
  strIn "BMA152" s || strIn "[BMA052 HT24]" s || strIn "[BMA201 VT25]" s

/-- The summary checks at lines 137-143 of the source: skip when the
summary is absent or empty (Python falsiness) or matches the exclusion
list; otherwise yield the summary. -/
def eligTitle (c : VEvent) : Option String :=
  match c.summary with
  | none => none
  | some s => if s = "" then none else if excludedB s then none else some s

/-- The time-resolution block at lines 146-161 of the source: none when
the event has no dtstart (the event is skipped); for a date-time start,
that start and the dtend value (or start plus one hour); for a bare-date
start, the schema match when found, else 23:00 and 23:59 on the same
date.  A propagated AttributeError from find_schema_times is an error. -/
def resolve_event_times (c : VEvent) (schema : List VEvent) :
    Except String (Option (DTV × DTV)) :=
  match c.dtstart with
  | none => Except.ok none
  | some (DTV.dt t) =>
    let en : DTV :=
      match c.dtend with
      | some e => e
      | none => DTV.dt (addOneHour t)
    Except.ok (some (DTV.dt t, en))
  | some (DTV.d d) =>
    match find_schema_times c schema with
    | Except.error e => Except.error e
    | Except.ok none =>
      Except.ok (some (DTV.dt ⟨d, ⟨23, 0, 0⟩⟩, DTV.dt ⟨d, ⟨23, 59, 0⟩⟩))
    | Except.ok (some p) => Except.ok (some p)

/-- The arguments of one api.add_task call, together with the identifier
of the event that triggered it (for bookkeeping). -/
structure TaskCall where
  content : String
  due : String
  descr : String
  eid : String
deriving DecidableEq

/-- The add_task call the source builds for an event whose times
resolved to the pair p. -/
def mkCall (c : VEvent) (p : DTV × DTV) : TaskCall :=
  { content := adjust_zoom_title (extract_lecture_title (c.summary.getD "")) c
    due := isoDTV p.1
    descr := (c.location.getD "") ++ "\n" ++ (c.description.getD "")
    eid := generate_event_id c }

/-- The mutable state of one reconciliation pass: the identifier set
loaded from the tracking file (never changed inside the loop), the
newly_added_events set, and the log of add_task calls made so far. -/
structure SyncState where
  added : List String
  newly : List String
  calls : List TaskCall
deriving DecidableEq

/-- One iteration of the event loop (lines 133-178 of the source) for a
single user-calendar event.  The dedup check consults only the added
set loaded at the start of the pass; a successful creation records the
identifier in newly, a failed creation records nothing. -/
def processEvent (sink : Nat → Bool) (schema : List VEvent) (st : SyncState) (c : VEvent) :
    Except String SyncState :=
  match eligTitle c with
  | none => Except.ok st
  | some _ =>
    match resolve_event_times c schema with
    | Except.error e => Except.error e
    | Except.ok none => Except.ok st
    | Except.ok (some p) =>
      if generate_event_id c ∈ st.added then Except.ok st
      else if sink st.calls.length then
        Except.ok ⟨st.added, st.newly ++ [generate_event_id c], st.calls ++ [mkCall c p]⟩
      else
        Except.ok ⟨st.added, st.newly, st.calls ++ [mkCall c p]⟩

/-- The event loop over the user calendar.  The Boolean is true when the
loop ran to completion; it is false when an unhandled AttributeError
propagated, in which case the state reached so far is returned and the
tracking file is never written. -/
def processEvents (sink : Nat → Bool) (schema : List VEvent) :
    SyncState → List VEvent → SyncState × Bool
  | st, [] => (st, true)
  | st, c :: cs =>
    match processEvent sink schema st c with
    | Except.ok st' => processEvents sink schema st' cs
    | Except.error _ => (st, false)

/-- A parsed calendar: the VEVENT components yielded by walk, plus the
Python truthiness of the Calendar object (a dict of its properties). -/
structure ICal where
  hasProps : Bool
  events : List VEvent
deriving DecidableEq

/-- The observable outcome of one sync_calendar_to_todoist run: the
contents written to the tracking file (none when the file was not
written) and the log of add_task calls made. -/
structure SyncResult where
  saved : Option (List String)
  callLog : List TaskCall
deriving DecidableEq

/-- sync_calendar_to_todoist.  Inputs: whether the initial api.sync()
call succeeded, the two load_calendar results (none models a fetch
failure returning None), the identifier list loaded from the tracking
file, and an oracle giving the outcome of the n-th api.add_task call.
When either calendar is falsy the run returns before any task creation
and before any store write; when the loop completes, the tracking file
is rewritten with the union of the loaded and the newly added
identifiers. -/
def sync_calendar_to_todoist (apiOk : Bool) (user_cal schema_cal : Option ICal)
    (store : List String) (sink : Nat → Bool) : SyncResult :=
  if apiOk = false then ⟨none, []⟩
  else
    match user_cal, schema_cal with
    | some uc, some sc =>
      if uc.hasProps && sc.hasProps then
        let p := processEvents sink sc.events ⟨store, [], []⟩ uc.events
        if p.2 then ⟨some (p.1.added ++ p.1.newly), p.1.calls⟩
        else ⟨none, p.1.calls⟩
      else ⟨none, []⟩
    | _, _ => ⟨none, []⟩

/-! Derived notions used to state the verified properties. -/

/-- Whether a schema event is selected by the scan in find_schema_times
for a user event with start value uds and extracted title ut: its own
start is a full date-time on the same date and its extracted title
matches ut as a substring in either direction. -/
def qualifiesB (uds : DTV) (ut : String) (se : VEvent) : Bool :=
  match se.dtstart with
  | some (DTV.dt t) =>
    pyDateEq t.date uds &&
      (strIn ut (extract_lecture_title (se.summary.getD "")) ||
       strIn (extract_lecture_title (se.summary.getD "")) ut)
  | _ => false

/-- Whether an Except value is a success (no propagated exception). -/
def exceptIsOk (r : Except String (Option (DTV × DTV))) : Bool :=
  match r with
  | Except.ok _ => true
  | Except.error _ => false

/-- A default .dt value used only as the second argument of getD at
positions where the option is known to be some. -/
def dflt : DTV := DTV.d ⟨1, 1, 1⟩

/-! Concrete inputs used by the counterexamples and witnesses. -/

/-- A user event with a date-time start on 2025-03-10, used twice in a
feed to exhibit two creation calls for one identifier. -/
def c1ev : VEvent :=
  ⟨some "Foo", some (DTV.dt ⟨⟨2025, 3, 10⟩, ⟨9, 0, 0⟩⟩),
   some (DTV.dt ⟨⟨2025, 3, 10⟩, ⟨10, 0, 0⟩⟩), none, none⟩

/-- A user event with a date-time start, for the run-twice witness. -/
def c2ev : VEvent :=
  ⟨some "Bar", some (DTV.dt ⟨⟨2025, 3, 11⟩, ⟨13, 0, 0⟩⟩),
   some (DTV.dt ⟨⟨2025, 3, 11⟩, ⟨14, 0, 0⟩⟩), none, none⟩

/-- A user event whose summary starts with a space, so that its
identifier does not survive the tracking-file round-trip: the saving
run writes the identifier verbatim but the loading run strips the
line. -/
def c2wsEv : VEvent :=
  ⟨some " Foo", some (DTV.dt ⟨⟨2025, 3, 10⟩, ⟨9, 0, 0⟩⟩),
   some (DTV.dt ⟨⟨2025, 3, 10⟩, ⟨10, 0, 0⟩⟩), none, none⟩

/-- A date-only user event whose summary has no anchor keyword and is
upper-case, for the C3 counterexample. -/
def c3pe : VEvent := ⟨some "ABC", some (DTV.d ⟨2025, 3, 10⟩), none, none, none⟩

/-- A schema event on the same date whose summary is the lower-case form
of the C3 user summary, with full start and end date-times. -/
def c3ref : VEvent :=
  ⟨some "abc", some (DTV.dt ⟨⟨2025, 3, 10⟩, ⟨9, 0, 0⟩⟩),
   some (DTV.dt ⟨⟨2025, 3, 10⟩, ⟨11, 0, 0⟩⟩), none, none⟩

/-- A date-only user event for the C4 counterexample. -/
def c4pe : VEvent := ⟨some "x", some (DTV.d ⟨2025, 3, 10⟩), none, none, none⟩

/-- A schema event with no dtstart property: scanning it raises
AttributeError in the source. -/
def c4ref : VEvent := ⟨some "x", none, none, none, none⟩

/-- A date-only user event for the C5 counterexample, upper-case
summary without the anchor keyword. -/
def c5pe : VEvent := ⟨some "ABC", some (DTV.d ⟨2025, 3, 10⟩), none, none, none⟩

/-- The same user event with the summary case-drifted to lower case. -/
def c5pe' : VEvent := ⟨some "abc", some (DTV.d ⟨2025, 3, 10⟩), none, none, none⟩

/-- A schema event matching the lower-case form only. -/
def c5ref : VEvent :=
  ⟨some "abc", some (DTV.dt ⟨⟨2025, 3, 10⟩, ⟨9, 0, 0⟩⟩),
   some (DTV.dt ⟨⟨2025, 3, 10⟩, ⟨11, 0, 0⟩⟩), none, none⟩

/-- An event with summary and date-time start for the C6 witness. -/
def c6ev : VEvent :=
  ⟨some "Foo", some (DTV.dt ⟨⟨2025, 3, 10⟩, ⟨9, 0, 0⟩⟩), none, some "Room 1", some "notes"⟩

/-- A second event differing from c6ev only in end, location and
description. -/
def c6ev' : VEvent :=
  ⟨some "Foo", some (DTV.dt ⟨⟨2025, 3, 10⟩, ⟨9, 0, 0⟩⟩),
   some (DTV.dt ⟨⟨2025, 3, 10⟩, ⟨12, 0, 0⟩⟩), none, none⟩

/-- A date-only user event with no matching schema event, for the C7
witness. -/
def c7pe : VEvent := ⟨some "Foo", some (DTV.d ⟨2025, 3, 10⟩), none, none, none⟩

/-- A user event reaching the task-creation call, for the C8 witness. -/
def c8ev : VEvent :=
  ⟨some "Baz", some (DTV.dt ⟨⟨2025, 3, 12⟩, ⟨8, 0, 0⟩⟩),
   some (DTV.dt ⟨⟨2025, 3, 12⟩, ⟨9, 0, 0⟩⟩), none, none⟩

/-- A reference event with full start and end, used by the witnesses of
the amended C3 and C4 theorems. -/
def c34wref : VEvent :=
  ⟨some "Laboratoriemedicin T3", some (DTV.dt ⟨⟨2025, 3, 10⟩, ⟨9, 0, 0⟩⟩),
   some (DTV.dt ⟨⟨2025, 3, 10⟩, ⟨11, 0, 0⟩⟩), none, none⟩

/-- A date-only personal event whose summary contains the anchor
keyword, used by the witnesses of the amended C3, C4 and C5 theorems. -/
def c34wpe : VEvent :=
  ⟨some "Program: X Laboratoriemedicin T3 sign: ab", some (DTV.d ⟨2025, 3, 10⟩), none, none, none⟩

end Todoist

namespace Todoist

/-! Helper lemmas. -/

/-- Lowercasing distributes over string append. -/
theorem lowerStr_append (a b : String) : lowerStr (a ++ b) = lowerStr a ++ lowerStr b := by
  unfold lowerStr
  apply congrArg String.mk
  rw [String.data_append, List.map_append]

/-- A list is a prefix of itself followed by anything. -/
theorem isPrefixOf_append_self (l t : List Char) : List.isPrefixOf l (l ++ t) = true := by
  induction l with
  | nil => simp [List.isPrefixOf]
  | cons a as ih => simp [List.isPrefixOf, ih]

/-- A chunk without a newline followed by a newline is one line of the
file, and the remaining content gives the remaining lines. -/
theorem pyLines_line (l rest : List Char) (h : '\n' ∉ l) :
    pyLines (l ++ '\n' :: rest) = l :: pyLines rest := by
  induction l with
  | nil => simp [pyLines]
  | cons c t ih =>
    rw [List.mem_cons] at h
    push_neg at h
    have hc : ¬ c = '\n' := fun hcc => h.1 hcc.symm
    have ht := ih h.2
    show pyLines (c :: (t ++ '\n' :: rest)) = (c :: t) :: pyLines rest
    rw [pyLines, if_neg hc, ht]

/-- The tracking-file round-trip is the identity on identifier lists
whose entries contain no newline and are unchanged by stripping:
save_added_events writes one line per identifier and load_added_events
recovers each line stripped. -/
theorem load_save_clean (ids : List String)
    (h : ∀ id ∈ ids, '\n' ∉ id.data ∧ pyStrip id.data = id.data) :
    load_added_events (save_added_events ids) = ids := by
  induction ids with
  | nil => rfl
  | cons x xs ih =>
    obtain ⟨hx1, hx2⟩ := h x (List.mem_cons_self x xs)
    have hxs : ∀ i ∈ xs, '\n' ∉ i.data ∧ pyStrip i.data = i.data :=
      fun i hi => h i (List.mem_cons_of_mem x hi)
    show (pyLines (x.data ++ '\n' :: saveLinesData xs)).map
        (fun l => (⟨pyStrip l⟩ : String)) = x :: xs
    rw [pyLines_line _ _ hx1]
    simp only [List.map_cons]
    rw [hx2]
    exact congrArg (fun ys => (⟨x.data⟩ : String) :: ys) (ih hxs)

/-- Case analysis on a successful loop iteration: either the event was
skipped and the state is unchanged, or a creation call was made, the
identifier was appended to newly exactly when the call succeeded, and
the call was logged. -/
theorem processEvent_ok_cases {sink : Nat → Bool} {schema : List VEvent} {st st' : SyncState}
    {c : VEvent} (h : processEvent sink schema st c = Except.ok st') :
    (st' = st ∧ (eligTitle c = none ∨ resolve_event_times c schema = Except.ok none ∨
       (∃ p, resolve_event_times c schema = Except.ok (some p) ∧ generate_event_id c ∈ st.added))) ∨
    (∃ s p, eligTitle c = some s ∧ resolve_event_times c schema = Except.ok (some p) ∧
      generate_event_id c ∉ st.added ∧
      ((sink st.calls.length = true ∧
         st' = ⟨st.added, st.newly ++ [generate_event_id c], st.calls ++ [mkCall c p]⟩) ∨
       (sink st.calls.length = false ∧
         st' = ⟨st.added, st.newly, st.calls ++ [mkCall c p]⟩))) := by
  unfold processEvent at h
  split at h
  · next he => exact Or.inl ⟨(Except.ok.inj h).symm, Or.inl he⟩
  · next s he =>
    split at h
    · next e hr => exact absurd h (by simp)
    · next hr => exact Or.inl ⟨(Except.ok.inj h).symm, Or.inr (Or.inl hr)⟩
    · next p hr =>
      split at h
      · next hm => exact Or.inl ⟨(Except.ok.inj h).symm, Or.inr (Or.inr ⟨p, hr, hm⟩)⟩
      · next hm =>
        split at h
        · next hs => exact Or.inr ⟨s, p, he, hr, hm, Or.inl ⟨hs, (Except.ok.inj h).symm⟩⟩
        · next hs =>
          exact Or.inr ⟨s, p, he, hr, hm,
            Or.inr ⟨Bool.not_eq_true _ ▸ hs, (Except.ok.inj h).symm⟩⟩

/-- Unfolding of the loop on a successful iteration. -/
theorem processEvents_cons_ok {sink : Nat → Bool} {schema : List VEvent} {st st₁ : SyncState}
    {c : VEvent} (cs : List VEvent) (hpe : processEvent sink schema st c = Except.ok st₁) :
    processEvents sink schema st (c :: cs) = processEvents sink schema st₁ cs := by
  rw [processEvents, hpe]

/-- Unfolding of the loop when an iteration raises. -/
theorem processEvents_cons_err {sink : Nat → Bool} {schema : List VEvent} {st : SyncState}
    {c : VEvent} {e : String} (cs : List VEvent)
    (hpe : processEvent sink schema st c = Except.error e) :
    processEvents sink schema st (c :: cs) = (st, false) := by
  rw [processEvents, hpe]

/-- Along a pass the loaded identifier set never changes, the newly
recorded set only grows, and the call log only grows. -/
theorem processEvents_mono (sink : Nat → Bool) (schema : List VEvent) :
    ∀ (evts : List VEvent) (st : SyncState),
      ((processEvents sink schema st evts).1.added = st.added) ∧
      (∀ x, x ∈ st.newly → x ∈ (processEvents sink schema st evts).1.newly) ∧
      st.calls.length ≤ (processEvents sink schema st evts).1.calls.length := by
  intro evts
  induction evts with
  | nil => intro st; exact ⟨rfl, fun x hx => hx, Nat.le_refl _⟩
  | cons c cs ih =>
    intro st
    cases hpe : processEvent sink schema st c with
    | error e =>
      rw [processEvents_cons_err cs hpe]
      exact ⟨rfl, fun x hx => hx, Nat.le_refl _⟩
    | ok st₁ =>
      rw [processEvents_cons_ok cs hpe]
      obtain ⟨hadded, hnewly, hcalls⟩ := ih st₁
      have h1 : st₁.added = st.added := by
        rcases processEvent_ok_cases hpe with ⟨hst, _⟩ | ⟨s, p, _, _, _, hbr⟩
        · rw [hst]
        · rcases hbr with ⟨_, hst⟩ | ⟨_, hst⟩ <;> rw [hst]
      have h2 : ∀ x, x ∈ st.newly → x ∈ st₁.newly := by
        rcases processEvent_ok_cases hpe with ⟨hst, _⟩ | ⟨s, p, _, _, _, hbr⟩
        · rw [hst]; exact fun x hx => hx
        · rcases hbr with ⟨_, hst⟩ | ⟨_, hst⟩ <;> rw [hst] <;> intro x hx <;> simp [hx]
      have h3 : st.calls.length ≤ st₁.calls.length := by
        rcases processEvent_ok_cases hpe with ⟨hst, _⟩ | ⟨s, p, _, _, _, hbr⟩
        · rw [hst]
        · rcases hbr with ⟨_, hst⟩ | ⟨_, hst⟩ <;> rw [hst] <;> simp
      exact ⟨h1 ▸ hadded, fun x hx => hnewly x (h2 x hx), Nat.le_trans h3 hcalls⟩

/-- The identifiers of the calls logged during a pass form a sublist of
the identifiers of the processed feed events: each logged call comes
from a distinct feed position, in feed order. -/
theorem processEvents_calls_sub (sink : Nat → Bool) (schema : List VEvent) :
    ∀ (evts : List VEvent) (st : SyncState),
      ∃ Δ, (processEvents sink schema st evts).1.calls = st.calls ++ Δ ∧
        (Δ.map TaskCall.eid).Sublist (evts.map generate_event_id) := by
  intro evts
  induction evts with
  | nil => intro st; exact ⟨[], by simp [processEvents], List.nil_sublist _⟩
  | cons c cs ih =>
    intro st
    cases hpe : processEvent sink schema st c with
    | error e =>
      rw [processEvents_cons_err cs hpe]
      exact ⟨[], by simp, List.nil_sublist _⟩
    | ok st₁ =>
      rw [processEvents_cons_ok cs hpe]
      rcases ih st₁ with ⟨Δ, hΔ, hsub⟩
      rcases processEvent_ok_cases hpe with ⟨hst, _⟩ | ⟨s, p, _, _, _, hbr⟩
      · refine ⟨Δ, ?_, List.Sublist.cons _ hsub⟩
        rw [hΔ, hst]
      · have hcalls : st₁.calls = st.calls ++ [mkCall c p] := by
          rcases hbr with ⟨_, hst⟩ | ⟨_, hst⟩ <;> rw [hst]
        refine ⟨mkCall c p :: Δ, ?_, List.Sublist.cons₂ _ hsub⟩
        rw [hΔ, hcalls, List.append_assoc]
        rfl

/-- An iteration leaves the state untouched when the event is filtered
out, resolves to no work, or its identifier is already in the loaded
store. -/
theorem processEvent_replay (sink₂ : Nat → Bool) (schema : List VEvent) (st₂ : SyncState)
    (c : VEvent)
    (h : eligTitle c = none ∨ resolve_event_times c schema = Except.ok none ∨
      (∃ p, resolve_event_times c schema = Except.ok (some p) ∧ generate_event_id c ∈ st₂.added)) :
    processEvent sink₂ schema st₂ c = Except.ok st₂ := by
  unfold processEvent
  rcases h with he | hr | ⟨p, hr, hm⟩
  · rw [he]
  · cases he : eligTitle c with
    | none => rfl
    | some s => rw [hr]
  · cases he : eligTitle c with
    | none => rfl
    | some s =>
      rw [hr]
      simp [hm]

/-- If a pass over some events completed with every creation call
succeeding, then a second pass over the same events, starting from any
store that contains both the first loaded store and everything the
first pass newly recorded, changes nothing and makes no call. -/
theorem processEvents_pass2 (sink sink₂ : Nat → Bool) (schema : List VEvent) :
    ∀ (evts : List VEvent) (st stF : SyncState),
      processEvents sink schema st evts = (stF, true) →
      (∀ n, n < stF.calls.length → sink n = true) →
      ∀ st₂ : SyncState,
        (∀ x, x ∈ st.added → x ∈ st₂.added) →
        (∀ x, x ∈ stF.newly → x ∈ st₂.added) →
        processEvents sink₂ schema st₂ evts = (st₂, true) := by
  intro evts
  induction evts with
  | nil => intro st stF _ _ st₂ _ _; rfl
  | cons c cs ih =>
    intro st stF h hsucc st₂ hA hN
    cases hpe : processEvent sink schema st c with
    | error e =>
      rw [processEvents_cons_err cs hpe] at h
      have hcontra := congrArg Prod.snd h
      simp at hcontra
    | ok st₁ =>
      rw [processEvents_cons_ok cs hpe] at h
      rcases processEvent_ok_cases hpe with ⟨hst, hskip⟩ | ⟨s, p, he, hr, hm, hbr⟩
      · have hrep : processEvent sink₂ schema st₂ c = Except.ok st₂ := by
          apply processEvent_replay
          rcases hskip with h1 | h2 | ⟨q, hq, hqm⟩
          · exact Or.inl h1
          · exact Or.inr (Or.inl h2)
          · exact Or.inr (Or.inr ⟨q, hq, hA _ hqm⟩)
        rw [processEvents_cons_ok cs hrep]
        have h' : processEvents sink schema st cs = (stF, true) := by
          rw [← hst]
          exact h
        exact ih st stF h' hsucc st₂ hA hN
      · rcases hbr with ⟨hsink, hst⟩ | ⟨hsink, hst⟩
        · have hid1 : generate_event_id c ∈ st₁.newly := by rw [hst]; simp
          have hidF : generate_event_id c ∈ stF.newly := by
            have hmm := (processEvents_mono sink schema cs st₁).2.1 _ hid1
            rw [h] at hmm
            exact hmm
          have hrep : processEvent sink₂ schema st₂ c = Except.ok st₂ :=
            processEvent_replay _ _ _ _ (Or.inr (Or.inr ⟨p, hr, hN _ hidF⟩))
          rw [processEvents_cons_ok cs hrep]
          refine ih st₁ stF h hsucc st₂ ?_ hN
          intro x hx
          apply hA
          rw [hst] at hx
          exact hx
        · exfalso
          have hlen : st.calls.length < stF.calls.length := by
            have hmono := (processEvents_mono sink schema cs st₁).2.2
            rw [h] at hmono
            have hlt : st.calls.length < st₁.calls.length := by rw [hst]; simp
            exact Nat.lt_of_lt_of_le hlt hmono
          have htrue := hsucc _ hlen
          rw [hsink] at htrue
          exact Bool.false_ne_true htrue

/-- The identifiers behind the creation calls of a whole run form a
sublist of the identifiers of the user-feed events. -/
theorem sync_callLog_sub (apiOk : Bool) (uc sc : ICal) (store : List String) (sink : Nat → Bool) :
    ((sync_calendar_to_todoist apiOk (some uc) (some sc) store sink).callLog.map
      TaskCall.eid).Sublist (uc.events.map generate_event_id) := by
  cases apiOk with
  | false => exact List.nil_sublist _
  | true =>
    by_cases hp : (uc.hasProps && sc.hasProps) = true
    · rcases hps : processEvents sink sc.events ⟨store, [], []⟩ uc.events with ⟨st1, b⟩
      have hcl : (sync_calendar_to_todoist true (some uc) (some sc) store sink).callLog
          = st1.calls := by
        cases b <;> simp [sync_calendar_to_todoist, hp, hps]
      rw [hcl]
      rcases processEvents_calls_sub sink sc.events uc.events ⟨store, [], []⟩ with ⟨Δ, hΔ, hsub⟩
      rw [hps] at hΔ
      have hst1 : st1.calls = Δ := by
        have h0 : ([] : List TaskCall) ++ Δ = Δ := List.nil_append Δ
        rw [← h0]
        exact hΔ
      rw [hst1]
      exact hsub
    · have hnil : (sync_calendar_to_todoist true (some uc) (some sc) store sink).callLog = [] := by
        simp [sync_calendar_to_todoist, hp]
      rw [hnil]
      exact List.nil_sublist _

/-- On a schema list whose events all carry dtstart and dtend, the scan
returns the first event selected by qualifiesB, with its start and end
values, and never raises. -/
theorem schemaScan_wf (uds : DTV) (ut : String) :
    ∀ (refs : List VEvent),
      (∀ se ∈ refs, se.dtstart.isSome ∧ se.dtend.isSome) →
      schemaScan uds ut refs =
        Except.ok ((refs.find? (qualifiesB uds ut)).map
          (fun se => (se.dtstart.getD dflt, se.dtend.getD dflt))) := by
  intro refs
  induction refs with
  | nil => intro _; rfl
  | cons se rest ih =>
    intro hwf
    obtain ⟨hs, he⟩ := hwf se (List.mem_cons_self se rest)
    have hrest : ∀ x ∈ rest, x.dtstart.isSome ∧ x.dtend.isSome :=
      fun x hx => hwf x (List.mem_cons_of_mem se hx)
    cases hv : se.dtstart with
    | none => rw [hv] at hs; exact absurd hs (by simp)
    | some v =>
      cases v with
      | d dd =>
        have hq : qualifiesB uds ut se = false := by
          unfold qualifiesB
          rw [hv]
        have hfind : List.find? (qualifiesB uds ut) (se :: rest) =
            List.find? (qualifiesB uds ut) rest := by
          simp [List.find?, hq]
        have hlhs : schemaScan uds ut (se :: rest) = schemaScan uds ut rest := by
          rw [schemaScan, hv]
        rw [hlhs, hfind]
        exact ih hrest
      | dt t =>
        by_cases hdq : pyDateEq t.date uds = true
        · by_cases htm : (strIn ut (extract_lecture_title (se.summary.getD "")) ||
              strIn (extract_lecture_title (se.summary.getD "")) ut) = true
          · obtain ⟨ev, hev⟩ := Option.isSome_iff_exists.mp he
            have hq : qualifiesB uds ut se = true := by
              unfold qualifiesB
              rw [hv]
              simp [hdq, htm]
            have hlhs : schemaScan uds ut (se :: rest) = Except.ok (some (DTV.dt t, ev)) := by
              simp only [schemaScan, hv, hdq, htm, hev, if_true]
            have hfind : List.find? (qualifiesB uds ut) (se :: rest) = some se := by
              simp [List.find?, hq]
            rw [hlhs, hfind]
            simp [hv, hev]
          · have htm' : (strIn ut (extract_lecture_title (se.summary.getD "")) ||
                strIn (extract_lecture_title (se.summary.getD "")) ut) = false := by
              simpa using htm
            have hq : qualifiesB uds ut se = false := by
              unfold qualifiesB
              rw [hv]
              simp [htm']
            have hlhs : schemaScan uds ut (se :: rest) = schemaScan uds ut rest := by
              simp only [schemaScan, hv, htm', hdq, if_true, Bool.false_eq_true, if_false]
            have hfind : List.find? (qualifiesB uds ut) (se :: rest) =
                List.find? (qualifiesB uds ut) rest := by
              simp [List.find?, hq]
            rw [hlhs, hfind]
            exact ih hrest
        · have hdq' : pyDateEq t.date uds = false := by simpa using hdq
          have hq : qualifiesB uds ut se = false := by
            unfold qualifiesB
            rw [hv]
            simp [hdq']
          have hlhs : schemaScan uds ut (se :: rest) = schemaScan uds ut rest := by
            simp only [schemaScan, hv, hdq', Bool.false_eq_true, if_false]
          have hfind : List.find? (qualifiesB uds ut) (se :: rest) =
              List.find? (qualifiesB uds ut) rest := by
            simp [List.find?, hq]
          rw [hlhs, hfind]
          exact ih hrest

/-- The extractor depends only on the cleaned summary whenever the
cleaned summary contains the anchor keyword. -/
theorem extract_clean_congr (s s' : String) (hclean : clean_text s = clean_text s')
    (hanch : strIn "laboratoriemedicin" (clean_text s) = true) :
    extract_lecture_title s = extract_lecture_title s' := by
  have hsome : (findSub "laboratoriemedicin".data (clean_text s).data).isSome = true := hanch
  obtain ⟨i, hi⟩ := Option.isSome_iff_exists.mp hsome
  unfold extract_lecture_title
  rw [← hclean, hi]

/-- Replacing one schema event by another with the same extracted
title, start and end leaves the scan unchanged. -/
theorem schemaScan_congr_at (uds : DTV) (ut : String) (r r' : VEvent)
    (hx : extract_lecture_title (r.summary.getD "") = extract_lecture_title (r'.summary.getD ""))
    (hds : r.dtstart = r'.dtstart) (hde : r.dtend = r'.dtend) :
    ∀ (pre post : List VEvent),
      schemaScan uds ut (pre ++ r :: post) = schemaScan uds ut (pre ++ r' :: post) := by
  intro pre
  induction pre with
  | nil =>
    intro post
    simp only [List.nil_append]
    cases hv : r.dtstart with
    | none =>
      have hv' : r'.dtstart = none := hds ▸ hv
      rw [schemaScan, schemaScan, hv, hv']
    | some v =>
      have hv' : r'.dtstart = some v := hds ▸ hv
      cases v with
      | d dd => rw [schemaScan, schemaScan, hv, hv']
      | dt t => simp only [schemaScan, hv, hv', hx, hde]
  | cons a pre ih =>
    intro post
    simp only [List.cons_append]
    cases hv : a.dtstart with
    | none => rw [schemaScan, schemaScan, hv]
    | some v =>
      cases v with
      | d dd =>
        rw [schemaScan, schemaScan, hv]
        exact ih post
      | dt t =>
        simp only [schemaScan, hv]
        by_cases hdq : pyDateEq t.date uds = true
        · simp only [hdq, if_true]
          by_cases htm : (strIn ut (extract_lecture_title (a.summary.getD "")) ||
              strIn (extract_lecture_title (a.summary.getD "")) ut) = true
          · simp only [htm, if_true]
          · have htm' : (strIn ut (extract_lecture_title (a.summary.getD "")) ||
                strIn (extract_lecture_title (a.summary.getD "")) ut) = false := by
              simpa using htm
            simp only [htm', Bool.false_eq_true, if_false]
            exact ih post
        · have hdq' : pyDateEq t.date uds = false := by simpa using hdq
          simp only [hdq', Bool.false_eq_true, if_false]
          exact ih post

end Todoist

namespace Todoist

/-! The claims. -/

/-- C1, counterexample: the claim that one reconciliation pass makes at
most one task-creation call per distinct event identifier is false.
With an empty store, a schema feed with no events, an always-succeeding
sink and a user feed holding the same event twice, the run makes two
creation calls carrying the same identifier: the loop checks only the
store loaded at start (added_events) and records new identifiers in a
separate set (newly_added_events) that the check never consults. -/
theorem c1_counterexample :
    ((sync_calendar_to_todoist true (some ⟨true, [c1ev, c1ev]⟩) (some ⟨true, []⟩) []
      (fun _ => true)).callLog.map TaskCall.eid).count "Foo-2025-03-10 09:00:00" = 2 := by
  rfl

/-- C1, amended: a single reconciliation pass makes at most one
task-creation call per distinct event identifier provided the
identifiers of the user-feed events are pairwise distinct; the dedup
check consults only the store loaded at the start of the pass, so
duplicate identifiers inside one feed each trigger a call. -/
theorem c1_amended (apiOk : Bool) (uc sc : ICal) (store : List String) (sink : Nat → Bool)
    (hnd : (uc.events.map generate_event_id).Nodup) :
    ∀ x, ((sync_calendar_to_todoist apiOk (some uc) (some sc) store sink).callLog.map
      TaskCall.eid).count x ≤ 1 := by
  intro x
  exact Nat.le_trans ((sync_callLog_sub apiOk uc sc store sink).count_le x)
    (List.nodup_iff_count_le_one.mp hnd x)

/-- C1, witness: the amended theorem applied to a concrete one-event
feed with pairwise distinct identifiers. -/
theorem c1_amended_witness :
    ((sync_calendar_to_todoist true (some ⟨true, [c1ev]⟩) (some ⟨true, []⟩) []
      (fun _ => true)).callLog.map TaskCall.eid).count "Foo-2025-03-10 09:00:00" ≤ 1 :=
  c1_amended true ⟨true, [c1ev]⟩ ⟨true, []⟩ [] (fun _ => true) (by decide) _

/-- C2, counterexample: the claim that a second full pass on identical
feed data, starting from the store the first pass left behind, makes
zero task-creation calls is false.  The store left behind is the
tracking file: save_added_events writes each identifier verbatim as one
line, but load_added_events strips every line on reload.  For a feed
whose single event has the summary " Foo" (leading space) and an
always-succeeding sink, the first pass completes with one successful
call and saves the identifier " Foo-2025-03-10 09:00:00"; reloading the
written file yields the stripped "Foo-2025-03-10 09:00:00", so the
second pass on the identical feed makes one creation call again. -/
theorem c2_counterexample :
    (sync_calendar_to_todoist true (some ⟨true, [c2wsEv]⟩) (some ⟨true, []⟩) []
      (fun _ => true)).saved = some [" Foo-2025-03-10 09:00:00"] ∧
    (sync_calendar_to_todoist true (some ⟨true, [c2wsEv]⟩) (some ⟨true, []⟩) []
      (fun _ => true)).callLog.length = 1 ∧
    load_added_events (save_added_events [" Foo-2025-03-10 09:00:00"]) =
      ["Foo-2025-03-10 09:00:00"] ∧
    (sync_calendar_to_todoist true (some ⟨true, [c2wsEv]⟩) (some ⟨true, []⟩)
      (load_added_events (save_added_events [" Foo-2025-03-10 09:00:00"]))
      (fun _ => true)).callLog.length = 1 :=
  ⟨rfl, rfl, rfl, rfl⟩

/-- C2, amended: if a full pass completes with its store write
(saved = some sv) and every task-creation call in it succeeded, then a
second full pass on identical feed data, starting from the tracking
file the first pass wrote (its content reloaded with
load_added_events), makes zero task-creation calls and rewrites the
store unchanged — provided every saved identifier survives the file
round-trip, that is, contains no newline and equals its stripped form.
Identifiers with boundary whitespace or embedded newlines do not
survive the round-trip and their events are synced again. -/
theorem c2_amended (uc sc : ICal) (store sv : List String) (sink sink₂ : Nat → Bool)
    (hsaved : (sync_calendar_to_todoist true (some uc) (some sc) store sink).saved = some sv)
    (hsucc : ∀ n, n < (sync_calendar_to_todoist true (some uc) (some sc) store sink).callLog.length →
      sink n = true)
    (hclean : ∀ id ∈ sv, '\n' ∉ id.data ∧ pyStrip id.data = id.data) :
    (sync_calendar_to_todoist true (some uc) (some sc)
      (load_added_events (save_added_events sv)) sink₂).callLog = [] ∧
    (sync_calendar_to_todoist true (some uc) (some sc)
      (load_added_events (save_added_events sv)) sink₂).saved = some sv := by
  rw [load_save_clean sv hclean]
  rcases hps : processEvents sink sc.events ⟨store, [], []⟩ uc.events with ⟨st1, b⟩
  by_cases hp : (uc.hasProps && sc.hasProps) = true
  · cases b with
    | false => simp [sync_calendar_to_todoist, hp, hps] at hsaved
    | true =>
      have hadd : st1.added = store := by
        have hm1 := (processEvents_mono sink sc.events uc.events ⟨store, [], []⟩).1
        rw [hps] at hm1
        exact hm1
      have hsv : sv = store ++ st1.newly := by
        have hx : (sync_calendar_to_todoist true (some uc) (some sc) store sink).saved
            = some (store ++ st1.newly) := by
          simp [sync_calendar_to_todoist, hp, hps, hadd]
        rw [hx] at hsaved
        exact (Option.some.inj hsaved).symm
      have hcl : (sync_calendar_to_todoist true (some uc) (some sc) store sink).callLog
          = st1.calls := by
        simp [sync_calendar_to_todoist, hp, hps]
      have hrun2 : processEvents sink₂ sc.events ⟨sv, [], []⟩ uc.events = (⟨sv, [], []⟩, true) := by
        apply processEvents_pass2 sink sink₂ sc.events uc.events ⟨store, [], []⟩ st1 hps
        · intro n hn
          apply hsucc
          rw [hcl]
          exact hn
        · intro x hx
          rw [hsv]
          exact List.mem_append_left _ hx
        · intro x hx
          rw [hsv]
          exact List.mem_append_right _ hx
      constructor
      · simp [sync_calendar_to_todoist, hp, hrun2]
      · simp [sync_calendar_to_todoist, hp, hrun2]
  · simp [sync_calendar_to_todoist, hp] at hsaved

/-- C2, witness: a concrete first run over one event with an
always-succeeding sink and a round-trip-surviving identifier, then a
second run from the reloaded tracking file making zero calls. -/
theorem c2_amended_witness :
    (sync_calendar_to_todoist true (some ⟨true, [c2ev]⟩) (some ⟨true, []⟩)
      (load_added_events (save_added_events ["Bar-2025-03-11 13:00:00"]))
      (fun _ => true)).callLog = [] ∧
    (sync_calendar_to_todoist true (some ⟨true, [c2ev]⟩) (some ⟨true, []⟩)
      (load_added_events (save_added_events ["Bar-2025-03-11 13:00:00"]))
      (fun _ => true)).saved = some ["Bar-2025-03-11 13:00:00"] :=
  c2_amended ⟨true, [c2ev]⟩ ⟨true, []⟩ [] ["Bar-2025-03-11 13:00:00"]
    (fun _ => true) (fun _ => true) (by rfl) (fun _ _ => rfl) (by decide)

/-- C3, counterexample: the claim matches on normalized core titles, but
the source compares the raw extractor outputs, which are normalized only
when the anchor keyword is present.  For the personal summary ABC and a
same-date reference event titled abc with full start and end, the
normalized core titles coincide, so the claim predicts the reference
pair; the code returns nothing. -/
theorem c3_counterexample :
    find_schema_times c3pe [c3ref] = Except.ok none ∧
    clean_text (extract_lecture_title "ABC") = clean_text (extract_lecture_title "abc") ∧
    c3ref.dtstart = some (DTV.dt ⟨⟨2025, 3, 10⟩, ⟨9, 0, 0⟩⟩) ∧
    c3pe.dtstart = some (DTV.d ⟨2025, 3, 10⟩) :=
  ⟨rfl, by decide, rfl, rfl⟩

/-- C3, amended: for a personal event with a bare-date start and a
reference list whose events all carry start and end fields, resolveTimes
returns the start and end of the first reference event in feed order
whose own start is a full date-time on the personal date and whose
extracted core title contains or is contained in the personal extracted
core title (titles normalized only when the anchor keyword is present),
and nothing when no reference event qualifies; any returned start is a
date-time on the personal date. -/
theorem c3_amended (pe : VEvent) (refs : List VEvent) (d : Date)
    (hwf : ∀ se ∈ refs, se.dtstart.isSome ∧ se.dtend.isSome)
    (hd : pe.dtstart = some (DTV.d d)) :
    find_schema_times pe refs =
      Except.ok ((refs.find? (qualifiesB (DTV.d d)
          (extract_lecture_title (pe.summary.getD "")))).map
        (fun se => (se.dtstart.getD dflt, se.dtend.getD dflt))) ∧
    (∀ a b, find_schema_times pe refs = Except.ok (some (a, b)) →
      ∃ t : DateTime, a = DTV.dt t ∧ t.date = d) := by
  have h1 : find_schema_times pe refs =
      schemaScan (DTV.d d) (extract_lecture_title (pe.summary.getD "")) refs := by
    unfold find_schema_times
    rw [hd]
  constructor
  · rw [h1]
    exact schemaScan_wf _ _ refs hwf
  · intro a b hab
    rw [h1, schemaScan_wf _ _ refs hwf] at hab
    have hmap := Except.ok.inj hab
    cases hfind : List.find? (qualifiesB (DTV.d d)
        (extract_lecture_title (pe.summary.getD ""))) refs with
    | none => rw [hfind] at hmap; exact absurd hmap (by simp)
    | some se =>
      rw [hfind] at hmap
      simp only [Option.map] at hmap
      rw [Option.some.injEq, Prod.mk.injEq] at hmap
      have hq := List.find?_some hfind
      unfold qualifiesB at hq
      cases hv : se.dtstart with
      | none => rw [hv] at hq; exact absurd hq (by simp)
      | some v =>
        cases v with
        | d dd => rw [hv] at hq; exact absurd hq (by simp)
        | dt t =>
          rw [hv] at hq
          have hdate : t.date = d := by
            have hand : pyDateEq t.date (DTV.d d) = true := by
              have hsplit := Bool.and_eq_true_iff.mp hq
              exact hsplit.1
            unfold pyDateEq at hand
            exact of_decide_eq_true hand
          refine ⟨t, ?_, hdate⟩
          rw [← hmap.1, hv]
          rfl

/-- C3, witness: the amended theorem applied to a concrete personal
event and a one-event reference list with full fields, where the first
event qualifies. -/
theorem c3_amended_witness :
    find_schema_times c34wpe [c34wref] =
      Except.ok ((([c34wref]).find? (qualifiesB (DTV.d ⟨2025, 3, 10⟩)
          (extract_lecture_title (c34wpe.summary.getD "")))).map
        (fun se => (se.dtstart.getD dflt, se.dtend.getD dflt))) :=
  (c3_amended c34wpe [c34wref] ⟨2025, 3, 10⟩ (by decide) rfl).1

/-- C4, counterexample: resolveTimes is not total.  On a reference list
containing an event with no dtstart property, the source evaluates
None.dt and raises AttributeError instead of returning a pair or
nothing. -/
theorem c4_counterexample :
    find_schema_times c4pe [c4ref] =
      Except.error "AttributeError: NoneType has no attribute dt" := by
  rfl

/-- C4, amended: resolveTimes raises no error for any personal event
whenever every reference event carries both a start and an end field;
with a missing reference start, or a missing end on the matched event,
it raises AttributeError. -/
theorem c4_amended (pe : VEvent) (refs : List VEvent)
    (hwf : ∀ se ∈ refs, se.dtstart.isSome ∧ se.dtend.isSome) :
    exceptIsOk (find_schema_times pe refs) = true := by
  cases hd : pe.dtstart with
  | none =>
    unfold find_schema_times
    rw [hd]
    rfl
  | some uds =>
    unfold find_schema_times
    rw [hd]
    show exceptIsOk (schemaScan uds (extract_lecture_title (pe.summary.getD "")) refs) = true
    rw [schemaScan_wf uds _ refs hwf]
    rfl

/-- C4, witness: the amended theorem applied to a concrete personal
event and a one-event reference list carrying both fields. -/
theorem c4_amended_witness :
    exceptIsOk (find_schema_times c34wpe [c34wref]) = true :=
  c4_amended c34wpe [c34wref] (by decide)

/-- C5, counterexample: resolveTimes is not invariant under case drift
of the personal summary.  With personal summary ABC no reference event
matches, while with the case-drifted summary abc the same reference
list yields a match: when the anchor keyword is absent the extractor
returns the raw stripped summary, so the comparison is case
sensitive. -/
theorem c5_counterexample :
    clean_text "ABC" = clean_text "abc" ∧
    find_schema_times c5pe [c5ref] = Except.ok none ∧
    find_schema_times c5pe' [c5ref] =
      Except.ok (some (DTV.dt ⟨⟨2025, 3, 10⟩, ⟨9, 0, 0⟩⟩, DTV.dt ⟨⟨2025, 3, 10⟩, ⟨11, 0, 0⟩⟩)) :=
  ⟨by decide, rfl, rfl⟩

/-- C5, amended: the invariance holds for summaries whose normalized
form contains the anchor keyword: if two summaries have the same
cleaned text and that text contains laboratoriemedicin, then the
extractor gives them the same core title, and replacing one by the
other in the personal event, or in any single reference event,
leaves the resolveTimes outcome unchanged. -/
theorem c5_amended (s s' : String)
    (hclean : clean_text s = clean_text s')
    (hanch : strIn "laboratoriemedicin" (clean_text s) = true) :
    extract_lecture_title s = extract_lecture_title s' ∧
    (∀ (ds de : Option DTV) (lo dc : Option String) (refs : List VEvent),
      find_schema_times ⟨some s, ds, de, lo, dc⟩ refs =
      find_schema_times ⟨some s', ds, de, lo, dc⟩ refs) ∧
    (∀ (pe : VEvent) (pre post : List VEvent) (ds de : Option DTV)
        (lo dc lo' dc' : Option String),
      find_schema_times pe (pre ++ ⟨some s, ds, de, lo, dc⟩ :: post) =
      find_schema_times pe (pre ++ ⟨some s', ds, de, lo', dc'⟩ :: post)) := by
  have hx : extract_lecture_title s = extract_lecture_title s' :=
    extract_clean_congr s s' hclean hanch
  refine ⟨hx, ?_, ?_⟩
  · intro ds de lo dc refs
    cases ds with
    | none => rfl
    | some uds =>
      show schemaScan uds (extract_lecture_title s) refs =
        schemaScan uds (extract_lecture_title s') refs
      rw [hx]
  · intro pe pre post ds de lo dc lo' dc'
    cases hd : pe.dtstart with
    | none =>
      unfold find_schema_times
      rw [hd]
    | some uds =>
      unfold find_schema_times
      rw [hd]
      show schemaScan uds (extract_lecture_title (pe.summary.getD ""))
          (pre ++ ⟨some s, ds, de, lo, dc⟩ :: post) =
        schemaScan uds (extract_lecture_title (pe.summary.getD ""))
          (pre ++ ⟨some s', ds, de, lo', dc'⟩ :: post)
      exact schemaScan_congr_at uds (extract_lecture_title (pe.summary.getD ""))
        ⟨some s, ds, de, lo, dc⟩ ⟨some s', ds, de, lo', dc'⟩ hx rfl rfl pre post

/-- C5, witness: the amended theorem applied to two concrete summaries
containing the anchor keyword that differ in case and in whitespace
runs. -/
theorem c5_amended_witness :
    extract_lecture_title "Laboratoriemedicin T3" =
      extract_lecture_title "laboratoriemedicin   t3" :=
  (c5_amended "Laboratoriemedicin T3" "laboratoriemedicin   t3" (by decide) (by decide)).1

/-- C6: the identifier of an event with a summary and a start value is
the summary, a hyphen, and the fixed textual rendering of the original
start value; the identifier is a pure function of the summary and
original start fields, so two events differing in any other field
(including differently resolved times, which are not part of the
event) collide on it. -/
theorem c6_identifier :
    (∀ (e : VEvent) (s : String) (v : DTV), e.summary = some s → e.dtstart = some v →
      generate_event_id e = s ++ "-" ++ strOfDTV v) ∧
    (∀ e₁ e₂ : VEvent, e₁.summary = e₂.summary → e₁.dtstart = e₂.dtstart →
      generate_event_id e₁ = generate_event_id e₂) := by
  constructor
  · intro e s v hs hv
    unfold generate_event_id
    rw [hs, hv]
    rfl
  · intro e₁ e₂ h1 h2
    unfold generate_event_id
    rw [h1, h2]

/-- C6, witness: the theorem applied to concrete events sharing summary
and start but differing in end, location and description. -/
theorem c6_witness :
    generate_event_id c6ev = "Foo" ++ "-" ++ strOfDTV (DTV.dt ⟨⟨2025, 3, 10⟩, ⟨9, 0, 0⟩⟩) ∧
    generate_event_id c6ev = generate_event_id c6ev' :=
  ⟨c6_identifier.1 c6ev "Foo" _ rfl rfl, c6_identifier.2 c6ev c6ev' rfl rfl⟩

/-- C7: for a personal event whose start is a bare date and for which
the schema match returns nothing, the orchestrator resolves the due
instant to 23:00 and the end instant to 23:59 on that same calendar
date. -/
theorem c7_fallback (c : VEvent) (schema : List VEvent) (d : Date)
    (hd : c.dtstart = some (DTV.d d))
    (hnm : find_schema_times c schema = Except.ok none) :
    resolve_event_times c schema =
      Except.ok (some (DTV.dt ⟨d, ⟨23, 0, 0⟩⟩, DTV.dt ⟨d, ⟨23, 59, 0⟩⟩)) := by
  unfold resolve_event_times
  rw [hd, hnm]

/-- C7, witness: the theorem applied to a concrete date-only event with
an empty schema feed. -/
theorem c7_witness :
    resolve_event_times c7pe [] =
      Except.ok (some (DTV.dt ⟨⟨2025, 3, 10⟩, ⟨23, 0, 0⟩⟩,
        DTV.dt ⟨⟨2025, 3, 10⟩, ⟨23, 59, 0⟩⟩)) :=
  c7_fallback c7pe [] ⟨2025, 3, 10⟩ rfl rfl

/-- C8: when the task-creation call for one eligible event fails, the
pass does not abort: the loop state after that event keeps the loaded
store and the newly set unchanged (only the call log grows), the
identifier is not recorded, and processing continues with the remaining
events. -/
theorem c8_failure_continues (sink : Nat → Bool) (schema : List VEvent) (st : SyncState)
    (c : VEvent) (cs : List VEvent) (s : String) (p : DTV × DTV)
    (hs : eligTitle c = some s)
    (hr : resolve_event_times c schema = Except.ok (some p))
    (hmem : generate_event_id c ∉ st.added)
    (hfail : sink st.calls.length = false) :
    processEvents sink schema st (c :: cs) =
      processEvents sink schema ⟨st.added, st.newly, st.calls ++ [mkCall c p]⟩ cs := by
  have h1 : processEvent sink schema st c =
      Except.ok ⟨st.added, st.newly, st.calls ++ [mkCall c p]⟩ := by
    unfold processEvent
    rw [hs, hr]
    simp [hmem, hfail]
  conv_lhs => rw [processEvents]
  rw [h1]

/-- C8, witness: the theorem applied to a concrete eligible event with
an always-failing sink. -/
theorem c8_witness :
    processEvents (fun _ => false) [] ⟨[], [], []⟩ [c8ev] =
      processEvents (fun _ => false) []
        ⟨[], [], [mkCall c8ev (DTV.dt ⟨⟨2025, 3, 12⟩, ⟨8, 0, 0⟩⟩,
          DTV.dt ⟨⟨2025, 3, 12⟩, ⟨9, 0, 0⟩⟩)]⟩ [] :=
  c8_failure_continues (fun _ => false) [] ⟨[], [], []⟩ c8ev [] "Baz" _ rfl rfl (by simp) rfl

/-- C9: if loading either feed failed (load_calendar returned None), the
whole run aborts with no side effects: no task-creation call is made
and the tracking file is not written. -/
theorem c9_fetch_abort (apiOk : Bool) (u s : Option ICal) (store : List String)
    (sink : Nat → Bool) (h : u = none ∨ s = none) :
    sync_calendar_to_todoist apiOk u s store sink = ⟨none, []⟩ := by
  unfold sync_calendar_to_todoist
  rcases h with h | h
  · subst h
    cases apiOk <;> cases s <;> simp
  · subst h
    cases apiOk <;> cases u <;> simp

/-- C9, witness: the theorem applied with a concrete failed user feed. -/
theorem c9_witness :
    sync_calendar_to_todoist true none (some ⟨true, []⟩) ["a"] (fun _ => true) = ⟨none, []⟩ :=
  c9_fetch_abort true none (some ⟨true, []⟩) ["a"] (fun _ => true) (Or.inl rfl)

/-- C10: the Zoom annotator is idempotent: applying it twice to any
title and event gives the same result as applying it once. -/
theorem c10_zoom_idempotent (t : String) (e : VEvent) :
    adjust_zoom_title (adjust_zoom_title t e) e = adjust_zoom_title t e := by
  unfold adjust_zoom_title
  by_cases hc : (strIn "zoom" (lowerStr (e.location.getD "")) ||
      strIn "zoom meeting" (lowerStr (e.description.getD ""))) = true
  · simp only [hc, if_true]
    by_cases ht : startsWithStr "zoom " (lowerStr t) = true
    · simp [ht]
    · simp only [Bool.not_eq_true] at ht
      simp only [ht, Bool.not_false, if_true]
      have hz : startsWithStr "zoom " (lowerStr ("Zoom " ++ t)) = true := by
        rw [lowerStr_append]
        show List.isPrefixOf "zoom ".data ((lowerStr "Zoom ").data ++ (lowerStr t).data) = true
        have hlow : (lowerStr "Zoom ").data = "zoom ".data := by decide
        rw [hlow]
        exact isPrefixOf_append_self _ _
      simp [hz]
  · simp only [Bool.not_eq_true] at hc
    simp [hc]

end Todoist
